import Mathlib

set_option maxHeartbeats 1000000

namespace kokkostbx

/-- Storage of `vector_base<Derived, NumType, size>` from `kokkos_vector.h`:
the fixed-length inline array `NumType data[size]`. The CRTP parameter
`Derived` only controls the static return type in C++ and carries no runtime
content, so the embedding drops it; every operation that returns `Derived`
returns a `vector_base NumType size` here. -/
def vector_base (NumType : Type) (size : Nat) : Type := Fin size → NumType

namespace vector_base

variable {NumType : Type} {size : Nat}

/-- `vector_base() = default` together with the member initializer
`NumType data[size] = {}`: every element is value-initialized to zero. -/
def default_ctor [Zero NumType] : vector_base NumType size := fun _ => 0

/-- `vector_base(NumType val)`: assigns `val` to every element. -/
def of_scalar (val : NumType) : vector_base NumType size := fun _ => val

/-- `vector_base(NumType arr[])`: copies `arr[i]` into `data[i]` for each
`i < size`. -/
def of_array (arr : Fin size → NumType) : vector_base NumType size := fun i => arr i

/-- `operator+=(const Derived& v)`: `data[i] += v.data[i]` for every `i`. -/
def add_assign [Add NumType] (a v : vector_base NumType size) :
    vector_base NumType size := fun i => a i + v i

/-- Binary `operator+(lhs, rhs)`: copies `lhs` into `sum` and applies
`sum += rhs`. -/
def add [Add NumType] (lhs rhs : vector_base NumType size) :
    vector_base NumType size := add_assign lhs rhs

/-- Unary `operator-(vec)`: copies `vec` into `negative` and multiplies
every element by `-1`. -/
def neg [Mul NumType] [Neg NumType] [One NumType] (vec : vector_base NumType size) :
    vector_base NumType size := fun i => vec i * (-1)

/-- `operator-=(const Derived& v)`: `data[i] -= v.data[i]` for every `i`. -/
def sub_assign [Sub NumType] (a v : vector_base NumType size) :
    vector_base NumType size := fun i => a i - v i

/-- Binary `operator-(lhs, rhs)`: copies `lhs` and applies `-= rhs`. -/
def sub [Sub NumType] (lhs rhs : vector_base NumType size) :
    vector_base NumType size := sub_assign lhs rhs

/-- `operator*=(const Derived& v)`: `data[i] *= v.data[i]` for every `i`. -/
def mul_assign [Mul NumType] (a v : vector_base NumType size) :
    vector_base NumType size := fun i => a i * v i

/-- Binary `operator*(lhs, rhs)`: copies `lhs` and applies `*= rhs`
(element-wise product). -/
def mul [Mul NumType] (lhs rhs : vector_base NumType size) :
    vector_base NumType size := mul_assign lhs rhs

/-- `operator/=(const Derived& v)`: `data[i] /= v.data[i]` for every `i`. -/
def div_assign [Div NumType] (a v : vector_base NumType size) :
    vector_base NumType size := fun i => a i / v i

/-- Binary `operator/(lhs, rhs)`: copies `lhs` and applies `/= rhs`
(element-wise quotient). -/
def div [Div NumType] (lhs rhs : vector_base NumType size) :
    vector_base NumType size := div_assign lhs rhs

/-- `is_zero()`: loops over the elements and returns `false` as soon as one
differs from zero, `true` otherwise. -/
def is_zero [Zero NumType] [DecidableEq NumType] (a : vector_base NumType size) :
    Bool := (List.finRange size).all fun i => decide (a i = 0)

/-- `dot(const Derived& v)`: `sum = 0; for i: sum += data[i] * v.data[i];
return sum` — a left fold in index order. -/
def dot [Add NumType] [Mul NumType] [Zero NumType]
    (a v : vector_base NumType size) : NumType :=
  (List.finRange size).foldl (fun sum i => sum + a i * v i) 0

/-- `length_sqr()`: its own loop `sum = 0; for i: sum += data[i] * data[i]`,
separate from `dot`. -/
def length_sqr [Add NumType] [Mul NumType] [Zero NumType]
    (a : vector_base NumType size) : NumType :=
  (List.finRange size).foldl (fun sum i => sum + a i * a i) 0

/-- `length()`: `Kokkos::Experimental::sqrt(length_sqr())`. The Kokkos
square-root routine is external to the repository, so it is passed in as the
function parameter `sqrtFn`. -/
def length [Add NumType] [Mul NumType] [Zero NumType]
    (sqrtFn : NumType → NumType) (a : vector_base NumType size) : NumType :=
  sqrtFn (length_sqr a)

/-- `normalize()`: computes `l = length()`; if `l > 0`, divides every element
by `l` in place, otherwise leaves the vector untouched. -/
def normalize [LinearOrderedField NumType] (sqrtFn : NumType → NumType)
    (a : vector_base NumType size) : vector_base NumType size :=
  let l := length sqrtFn a
  if 0 < l then fun i => a i / l else a

/-- `get_unit_vector()`: computes `l = length()`, default-constructs
`unit_vector` (all zeros); if `l > 0`, sets `unit_vector[i] = data[i] / l`;
returns `unit_vector`. -/
def get_unit_vector [LinearOrderedField NumType] (sqrtFn : NumType → NumType)
    (a : vector_base NumType size) : vector_base NumType size :=
  let l := length sqrtFn a
  if 0 < l then fun i => a i / l else default_ctor

/-- `print(const char name[])`: `printf("%s: ", name)`, then `print_num` on
each element in index order, then `printf("\n")`; modelled as the
concatenation of everything written to the output stream. -/
def print (fmt : NumType → String) (name : String) (a : vector_base NumType size) :
    String :=
  ((List.finRange size).foldl (fun out i => out ++ fmt (a i)) (name ++ ": ")) ++ "\n"

end vector_base

/-- The `print_num` overload selected for integral element types:
`printf("%d ", x)` — the decimal rendering of `x` followed by one space. -/
def print_num_int (x : Int) : String := toString x ++ " "

/-- `vector3<NumType>`, which IS-A
`vector_base<vector3<NumType>, NumType, 3>` and adds no storage. -/
def vector3 (NumType : Type) : Type := vector_base NumType 3

namespace vector3

variable {NumType : Type}

/-- `x_val()`: `data[0]`. -/
def x_val (v : vector3 NumType) : NumType := v 0

/-- `y_val()`: `data[1]`. -/
def y_val (v : vector3 NumType) : NumType := v 1

/-- `z_val()`: `data[2]`. -/
def z_val (v : vector3 NumType) : NumType := v 2

/-- `vector3(x, y, z)`: default-constructs the base (all elements zero), then
assigns `data[0] = x; data[1] = y; data[2] = z` in that order. -/
def mk3 [Zero NumType] (x y z : NumType) : vector3 NumType :=
  Function.update (Function.update
    (Function.update (vector_base.default_ctor : vector3 NumType) 0 x) 1 y) 2 z

/-- `cross(const vector3& v)`: default-constructs `cross_vector` (all zeros),
then assigns its x/y/z components by the standard 3D cross-product formula,
in that order, and returns it. -/
def cross [Zero NumType] [Mul NumType] [Sub NumType]
    (a v : vector3 NumType) : vector3 NumType :=
  let c0 : vector3 NumType := vector_base.default_ctor
  let c1 := Function.update c0 0 (y_val a * z_val v - z_val a * y_val v)
  let c2 := Function.update c1 1 (z_val a * x_val v - x_val a * z_val v)
  let c3 := Function.update c2 2 (x_val a * y_val v - y_val a * x_val v)
  c3

end vector3

/-! ### Unfolding lemmas for the element-level behaviour of each operation -/

variable {NumType : Type} {size : Nat}

lemma default_ctor_val [Zero NumType] (i : Fin size) :
    (vector_base.default_ctor : vector_base NumType size) i = 0 := rfl

lemma of_scalar_val (v : NumType) (i : Fin size) :
    (vector_base.of_scalar v : vector_base NumType size) i = v := rfl

lemma add_val [Add NumType] (a b : vector_base NumType size) (i : Fin size) :
    vector_base.add a b i = a i + b i := rfl

lemma sub_val [Sub NumType] (a b : vector_base NumType size) (i : Fin size) :
    vector_base.sub a b i = a i - b i := rfl

lemma mul_val [Mul NumType] (a b : vector_base NumType size) (i : Fin size) :
    vector_base.mul a b i = a i * b i := rfl

lemma div_val [Div NumType] (a b : vector_base NumType size) (i : Fin size) :
    vector_base.div a b i = a i / b i := rfl

lemma neg_val [Mul NumType] [Neg NumType] [One NumType]
    (a : vector_base NumType size) (i : Fin size) :
    vector_base.neg a i = a i * (-1) := rfl

lemma mk3_val0 [Zero NumType] (x y z : NumType) : vector3.mk3 x y z 0 = x := rfl

lemma mk3_val1 [Zero NumType] (x y z : NumType) : vector3.mk3 x y z 1 = y := rfl

lemma mk3_val2 [Zero NumType] (x y z : NumType) : vector3.mk3 x y z 2 = z := rfl

lemma cross_val0 [Zero NumType] [Mul NumType] [Sub NumType] (a b : vector3 NumType) :
    vector3.cross a b 0 = vector3.y_val a * vector3.z_val b -
      vector3.z_val a * vector3.y_val b := rfl

lemma cross_val1 [Zero NumType] [Mul NumType] [Sub NumType] (a b : vector3 NumType) :
    vector3.cross a b 1 = vector3.z_val a * vector3.x_val b -
      vector3.x_val a * vector3.z_val b := rfl

lemma cross_val2 [Zero NumType] [Mul NumType] [Sub NumType] (a b : vector3 NumType) :
    vector3.cross a b 2 = vector3.x_val a * vector3.y_val b -
      vector3.y_val a * vector3.x_val b := rfl

/-- Two 3-component vectors agreeing on all three components are equal. -/
lemma vec3_ext (u w : vector3 NumType) (h0 : u 0 = w 0) (h1 : u 1 = w 1)
    (h2 : u 2 = w 2) : u = w := by
  funext i
  match i with
  | ⟨0, _⟩ => exact h0
  | ⟨1, _⟩ => exact h1
  | ⟨2, _⟩ => exact h2

/-! ### The loop accumulations as big operators -/

lemma foldl_add_eq {M β : Type} [AddCommMonoid M] (f : β → M) (c : M) (l : List β) :
    l.foldl (fun s x => s + f x) c = c + (l.map f).sum := by
  induction l generalizing c with
  | nil => simp
  | cons b t ih => simp [ih, add_assoc]

lemma dot_eq_sum {R : Type} {n : Nat} [NonUnitalNonAssocSemiring R]
    (a v : vector_base R n) : vector_base.dot a v = ∑ i, a i * v i := by
  simp only [vector_base.dot]
  rw [foldl_add_eq, zero_add, Fin.sum_univ_def]

lemma length_sqr_eq_sum {R : Type} {n : Nat} [NonUnitalNonAssocSemiring R]
    (a : vector_base R n) : vector_base.length_sqr a = ∑ i, a i * a i := by
  simp only [vector_base.length_sqr]
  rw [foldl_add_eq, zero_add, Fin.sum_univ_def]

/-- `is_zero` reports `true` exactly when every element is zero. -/
lemma is_zero_iff {R : Type} {n : Nat} [Zero R] [DecidableEq R]
    (a : vector_base R n) : vector_base.is_zero a = true ↔ ∀ i, a i = 0 := by
  simp only [vector_base.is_zero, List.all_eq_true, decide_eq_true_eq]
  exact ⟨fun h i => h i (List.mem_finRange i), fun h i _ => h i⟩

/-! ### String accumulation of the diagnostic output -/

lemma str_join_cons (s : String) (l : List String) :
    String.join (s :: l) = s ++ String.join l := by
  apply String.ext
  simp

lemma str_foldl_join {β : Type} (f : β → String) (l : List β) (c : String) :
    l.foldl (fun out x => out ++ f x) c = c ++ String.join (l.map f) := by
  induction l generalizing c with
  | nil =>
    apply String.ext
    simp [String.join]
  | cons b t ih =>
    simp only [List.foldl_cons, List.map_cons, str_join_cons, ih]
    apply String.ext
    simp

end kokkostbx

namespace kokkostbx

/-! ### Claims -/

/-- C1: for every pair of 3-component vectors `a` and `b`, `cross` returns the
vector whose components follow the standard 3D cross-product formula
(`result.x = a.y*b.z - a.z*b.y`, `result.y = a.z*b.x - a.x*b.z`,
`result.z = a.x*b.y - a.y*b.x`); in particular
`vector3(1,0,0).cross(vector3(0,1,0)) = vector3(0,0,1)`. -/
theorem cross_formula_spec {R : Type} [Zero R] [Mul R] [Sub R] (a b : vector3 R) :
    (vector3.cross a b).x_val =
      vector3.y_val a * vector3.z_val b - vector3.z_val a * vector3.y_val b ∧
    (vector3.cross a b).y_val =
      vector3.z_val a * vector3.x_val b - vector3.x_val a * vector3.z_val b ∧
    (vector3.cross a b).z_val =
      vector3.x_val a * vector3.y_val b - vector3.y_val a * vector3.x_val b ∧
    vector3.cross (vector3.mk3 (1:Int) 0 0) (vector3.mk3 0 1 0) = vector3.mk3 0 0 1 := by
  refine ⟨rfl, rfl, rfl, vec3_ext _ _ ?_ ?_ ?_⟩ <;> rfl

/-- C2: on a vector that `is_zero`, `normalize` leaves the vector unchanged and
`get_unit_vector` returns the zero vector, given that the external square-root
routine maps 0 to 0. -/
theorem normalize_zero_vector_spec {R : Type} {n : Nat} [LinearOrderedField R]
    (sqrtFn : R → R) (a : vector_base R n) (hs : sqrtFn 0 = 0)
    (hz : vector_base.is_zero a = true) :
    vector_base.normalize sqrtFn a = a ∧
    vector_base.get_unit_vector sqrtFn a = vector_base.default_ctor := by
  have hai : ∀ i, a i = 0 := (is_zero_iff a).mp hz
  have hls : vector_base.length_sqr a = 0 := by
    rw [length_sqr_eq_sum]
    exact Finset.sum_eq_zero fun i _ => by rw [hai i, mul_zero]
  have hl : vector_base.length sqrtFn a = 0 := by
    simp only [vector_base.length, hls, hs]
  constructor
  · simp [vector_base.normalize, hl]
  · simp [vector_base.get_unit_vector, hl]

/-- C2 witness: the zero 3-vector over ℚ, with the identity standing in for the
square-root routine (it maps 0 to 0). -/
theorem normalize_zero_vector_spec_witness :
    vector_base.normalize (fun x : ℚ => x) (vector_base.of_scalar 0 : vector_base ℚ 3) =
      (vector_base.of_scalar 0 : vector_base ℚ 3) ∧
    vector_base.get_unit_vector (fun x : ℚ => x) (vector_base.of_scalar 0 : vector_base ℚ 3) =
      vector_base.default_ctor :=
  normalize_zero_vector_spec (fun x => x) (vector_base.of_scalar 0) rfl (by decide)

/-- C3: the binary arithmetic operators are element-wise: `(a+b)[i] = a[i]+b[i]`,
`(a-b)[i] = a[i]-b[i]`, `(a*b)[i] = a[i]*b[i]` (Hadamard, not a dot product),
`(a/b)[i] = a[i]/b[i]`. -/
theorem elementwise_ops_spec {R : Type} {n : Nat} [Add R] [Sub R] [Mul R] [Div R]
    (a b : vector_base R n) (i : Fin n) :
    vector_base.add a b i = a i + b i ∧
    vector_base.sub a b i = a i - b i ∧
    vector_base.mul a b i = a i * b i ∧
    vector_base.div a b i = a i / b i := ⟨rfl, rfl, rfl, rfl⟩

/-- C4: `dot` is symmetric, and `length_sqr` agrees with `dot` of a vector with
itself even though the two are computed by separate loops. -/
theorem dot_symm_length_sqr_spec {R : Type} {n : Nat} [CommRing R]
    (a b : vector_base R n) :
    vector_base.dot a b = vector_base.dot b a ∧
    vector_base.length_sqr a = vector_base.dot a a := by
  refine ⟨?_, rfl⟩
  rw [dot_eq_sum, dot_eq_sum]
  exact Finset.sum_congr rfl fun i _ => mul_comm _ _

/-- C5: under exact element arithmetic the cross product is anticommutative,
vanishes on equal arguments, and is orthogonal to both operands. -/
theorem cross_algebra_spec {R : Type} [CommRing R] (a b : vector3 R) :
    vector3.cross a b = vector_base.neg (vector3.cross b a) ∧
    vector3.cross a a = vector_base.default_ctor ∧
    vector_base.dot (vector3.cross a b) a = 0 ∧
    vector_base.dot (vector3.cross a b) b = 0 := by
  refine ⟨vec3_ext _ _ ?_ ?_ ?_, vec3_ext _ _ ?_ ?_ ?_, ?_, ?_⟩ <;>
    simp only [dot_eq_sum, Fin.sum_univ_three, neg_val, default_ctor_val,
      cross_val0, cross_val1, cross_val2,
      vector3.x_val, vector3.y_val, vector3.z_val] <;>
    ring

/-- C6: vector addition is commutative and associative, and adding the unary
negation of a vector to itself gives the zero vector. -/
theorem add_group_props_spec {R : Type} {n : Nat} [CommRing R]
    (a b c : vector_base R n) :
    vector_base.add a b = vector_base.add b a ∧
    vector_base.add (vector_base.add a b) c = vector_base.add a (vector_base.add b c) ∧
    vector_base.add a (vector_base.neg a) = vector_base.default_ctor := by
  refine ⟨funext fun i => ?_, funext fun i => ?_, funext fun i => ?_⟩ <;>
    simp only [vector_base.add, vector_base.add_assign, neg_val, default_ctor_val] <;>
    ring

/-- C7: `length` is the square root of `length_sqr`; in particular
`vector3(3,4,0).length() = 5` under real square root. -/
theorem length_sqrt_spec :
    (∀ (n : Nat) (a : vector_base ℝ n),
      vector_base.length Real.sqrt a = Real.sqrt (vector_base.length_sqr a)) ∧
    vector_base.length Real.sqrt (vector3.mk3 (3:ℝ) 4 0) = 5 := by
  refine ⟨fun n a => rfl, ?_⟩
  have h25 : vector_base.length_sqr (vector3.mk3 (3:ℝ) 4 0) = 25 := by
    rw [length_sqr_eq_sum, Fin.sum_univ_three, mk3_val0, mk3_val1, mk3_val2]
    norm_num
  show Real.sqrt (vector_base.length_sqr (vector3.mk3 (3:ℝ) 4 0)) = 5
  rw [h25, show (25:ℝ) = 5 ^ 2 by norm_num]
  exact Real.sqrt_sq (by norm_num)

/-- C8: default construction yields the all-zero vector, scalar construction
broadcasts the scalar, and the three-argument `vector3` constructor sets
components 0/1/2 to x/y/z, matching construction from the sequence `[x,y,z]`. -/
theorem constructors_spec {R : Type} {n : Nat} [Zero R] (v x y z : R) (i : Fin n) :
    (vector_base.default_ctor : vector_base R n) i = 0 ∧
    (vector_base.of_scalar v : vector_base R n) i = v ∧
    vector3.mk3 x y z 0 = x ∧ vector3.mk3 x y z 1 = y ∧ vector3.mk3 x y z 2 = z ∧
    vector3.mk3 x y z = vector_base.of_array ![x, y, z] := by
  refine ⟨rfl, rfl, rfl, rfl, rfl, vec3_ext _ _ ?_ ?_ ?_⟩ <;> rfl

/-- C9: `print` writes the name, then `": "`, then each element through the
integral `print_num` formatter (each followed by one space), then a newline;
printing `vector3(1,2,3)` under the name `v` yields exactly `"v: 1 2 3 \n"`. -/
theorem print_contract_spec {n : Nat} (name : String) (a : vector_base Int n) :
    vector_base.print print_num_int name a =
      name ++ ": " ++ String.join ((List.finRange n).map fun i => print_num_int (a i)) ++ "\n" ∧
    vector_base.print print_num_int ("v") (vector3.mk3 (1:Int) 2 3) = "v: 1 2 3 \n" := by
  refine ⟨?_, rfl⟩
  simp only [vector_base.print]
  rw [str_foldl_join]

/-- C10 (implicit refinement): `normalize` and `get_unit_vector` compute the
same result — after normalizing, the vector equals what `get_unit_vector`
returns on the original value — given that the external square-root routine is
nonnegative on nonnegative inputs and vanishes only at zero. -/
theorem normalize_refines_unit_vector_spec {R : Type} {n : Nat} [LinearOrderedField R]
    (sqrtFn : R → R) (hpos : ∀ x, 0 ≤ x → 0 ≤ sqrtFn x)
    (hzero : ∀ x, 0 ≤ x → sqrtFn x = 0 → x = 0) (a : vector_base R n) :
    vector_base.normalize sqrtFn a = vector_base.get_unit_vector sqrtFn a := by
  by_cases h : 0 < vector_base.length sqrtFn a
  · simp [vector_base.normalize, vector_base.get_unit_vector, h]
  · have hnn : 0 ≤ vector_base.length_sqr a := by
      rw [length_sqr_eq_sum]
      exact Finset.sum_nonneg fun i _ => mul_self_nonneg _
    have hl0 : vector_base.length sqrtFn a = 0 :=
      le_antisymm (not_lt.mp h) (hpos _ hnn)
    have hsq0 : vector_base.length_sqr a = 0 := hzero _ hnn hl0
    have hai : ∀ i, a i = 0 := by
      intro i
      have hz := (Finset.sum_eq_zero_iff_of_nonneg
        (fun j _ => mul_self_nonneg (a j))).mp (by rw [← length_sqr_eq_sum]; exact hsq0)
      exact mul_self_eq_zero.mp (hz i (Finset.mem_univ i))
    have ha : a = vector_base.default_ctor := funext fun i => hai i
    simp only [vector_base.normalize, vector_base.get_unit_vector, if_neg h]
    exact ha

/-- C10 witness: the constant-2 4-vector over ℚ, with the identity standing in
for the square-root routine (nonnegative on nonnegatives, zero only at zero). -/
theorem normalize_refines_unit_vector_spec_witness :
    vector_base.normalize (fun x : ℚ => x) (vector_base.of_scalar 2 : vector_base ℚ 4) =
      vector_base.get_unit_vector (fun x : ℚ => x) (vector_base.of_scalar 2 : vector_base ℚ 4) :=
  normalize_refines_unit_vector_spec (fun x => x) (fun _ h => h) (fun _ _ h => h)
    (vector_base.of_scalar 2)

end kokkostbx
